import Mathlib

/-!
Verification of the cluster-coordination core of the halin repository
(src/src/App.js, class `ClusterManager` and its helpers).

The JavaScript is shallowly embedded: promises that always settle become
total functions returning an `Outcome` (resolved value or rejection reason),
synchronous throws become `Except`, and the mutable `ClusterManager` state
(the event log ring) is threaded explicitly.  `Promise.all` preserves the
positional order of its input array, so a fan-out over the member list is a
`List.map` over that list; where several branches mutate the event log
concurrently, the state passing linearizes the appends in member order
(append counts and per-member results are independent of that order).
-/

namespace Halin

/-- JS truthiness of an optional string value: `undefined`/`null` and the
empty string are falsy, every other string is truthy. -/
def truthy : Option String → Bool
  | none => false
  | some s => s != ""

/-- A cluster member handle (external topology provider).  The core only
reads its bolt address. -/
structure Node where
  boltAddress : String
deriving DecidableEq

/-- `node.getBoltAddress()`. -/
def Node.getBoltAddress (n : Node) : String := n.boltAddress

/-- Settled state of a promise: resolved with a value or rejected with a
reason. -/
inductive Outcome (ρ : Type) (ε : Type)
  | ok (value : ρ)
  | err (reason : ε)
deriving DecidableEq

/-- Whether a settled promise resolved. -/
def Outcome.isOk : Outcome ρ ε → Bool
  | .ok _ => true
  | .err _ => false

/-- The per-member result envelope.  `results` (the payload) is `none` when
the JS sets it to `undefined` or omits it; `err` is `none` on the success
variant. -/
structure ClusterOpResult (ρ : Type) (ε : Type) where
  success : Bool
  node : Node
  addr : String
  results : Option ρ
  err : Option ε
deriving DecidableEq

/-- `clusterOpSuccess(node, results)` from App.js; the one-argument call
`clusterOpSuccess(node)` passes `results := none` (JS `undefined`). -/
def clusterOpSuccess (node : Node) (results : Option ρ) : ClusterOpResult ρ ε :=
  { success := true, node, addr := node.getBoltAddress, results, err := none }

/-- `clusterOpFailure(node, err)` from App.js.  The sentry report is a
fire-and-forget side channel with no effect on the returned value. -/
def clusterOpFailure (node : Node) (e : ε) : ClusterOpResult ρ ε :=
  { success := false, node, addr := node.getBoltAddress, results := none, err := some e }

/-- The `{ success, results }` aggregate. -/
structure AggregatedResult (ρ : Type) (ε : Type) where
  success : Bool
  results : List (ClusterOpResult ρ ε)
deriving DecidableEq

/-- `packageClusterOpResults(results)` from App.js: overall success exactly
when the filter by `success` keeps everything. -/
def packageClusterOpResults (results : List (ClusterOpResult ρ ε)) : AggregatedResult ρ ε :=
  { success := (results.filter (fun r => r.success)).length == results.length,
    results }

/-- One member branch of `mapQueryAcrossCluster`:
`node.run(query, params).then(r => clusterOpSuccess(node, r)).catch(e => clusterOpFailure(node, e))`. -/
def memberBranch (run : Node → String → π → Outcome ρ ε) (query : String) (params : π)
    (node : Node) : ClusterOpResult ρ ε :=
  match run node query params with
  | .ok r => clusterOpSuccess node (some r)
  | .err e => clusterOpFailure node e

/-- `ClusterManager.mapQueryAcrossCluster(query, params)`.  `run` is the
external `node.run` collaborator, giving each member's settled outcome;
`Promise.all` assembles the results positionally, so the fan-out is a map
over the member list in iteration order. -/
def mapQueryAcrossCluster (members : List Node) (query : String) (params : π)
    (run : Node → String → π → Outcome ρ ε) : AggregatedResult ρ ε :=
  packageClusterOpResults (members.map (memberBranch run query params))

/-! ## EventLog -/

/-- Modelled from the spec: the `ringjs` `Ring` backing `eventLog` is a
dependency whose source is not part of this repository.  Per §3/§4.1 of the
spec it is a fixed-capacity FIFO ring: push inserts at the tail and, when the
size exceeds the capacity, evicts from the head; `toArray` returns the
contents in insertion order, oldest first.  `items` is stored oldest first. -/
structure RingBuf (α : Type) where
  capacity : Nat
  items : List α
deriving DecidableEq

/-- `ring.push(a)`: append at the tail, then evict from the head down to
capacity. -/
def RingBuf.push (r : RingBuf α) (a : α) : RingBuf α :=
  let grown := r.items ++ [a]
  { r with items := if r.capacity < grown.length then grown.drop (grown.length - r.capacity) else grown }

/-- `ring.toArray()`: current contents, oldest first. -/
def RingBuf.toArray (r : RingBuf α) : List α := r.items

/-- `MAX_EVENTS` from App.js. -/
def MAX_EVENTS : Nat := 200

/-- Event payloads observed in App.js: a plain string (user or role name) or
the `{ username, roles }` object of `roleassoc` events. -/
inductive Payload
  | str (s : String)
  | userRoles (username : String) (roles : List String)
deriving DecidableEq

/-- JS truthiness of an optional payload: `undefined`/`null` and the empty
string are falsy, objects and non-empty strings are truthy. -/
def truthyPayload : Option Payload → Bool
  | none => false
  | some (.str s) => s != ""
  | some (.userRoles _ _) => true

/-- An event as supplied by a caller of `addEvent` (fields may be absent). -/
structure Event where
  message : Option String
  type : Option String
  payload : Option Payload
deriving DecidableEq

/-- The stored form of an event after `addEvent` stamps it. -/
structure EventData where
  message : Option String
  type : Option String
  payload : Option Payload
  date : String
  id : String
deriving DecidableEq

/-- The stamping performed by `addEvent` on a valid event: copy the caller's
fields (the JS deep-clones, which the pure embedding gets for free), set
`payload` to `event.payload || null`, and stamp `date` (UTC clock) and `id`
(fresh UUID), both supplied here by the caller as they come from external
collaborators. -/
def stampEvent (e : Event) (date id : String) : EventData :=
  { message := e.message, type := e.type,
    payload := if truthyPayload e.payload then e.payload else none,
    date, id }

/-- Mutable state of a `ClusterManager`: its event log ring. -/
structure CMState where
  eventLog : RingBuf EventData
deriving DecidableEq

/-- `new ClusterManager(ctx)`: a fresh event log ring of capacity
`MAX_EVENTS`. -/
def mkClusterManager : CMState :=
  { eventLog := { capacity := MAX_EVENTS, items := [] } }

/-- `ClusterManager.addEvent(event)`: throws unless `event.message` and
`event.type` are truthy; otherwise stamps the event and pushes it onto the
ring.  The throw happens before the push, so on the error branch the state
is returned untouched by construction. -/
def addEvent (cm : CMState) (e : Event) (date id : String) : Except String CMState :=
  if ¬ truthy e.message ∨ ¬ truthy e.type then
    .error "ClusterManager events must have at least message, type"
  else
    .ok { cm with eventLog := cm.eventLog.push (stampEvent e date id) }

/-- `ClusterManager.getEventLog()`. -/
def getEventLog (cm : CMState) : List EventData := cm.eventLog.toArray

/-- An `addEvent` call as seen by a caller that catches the throw: on the
error branch the manager's state is exactly what it was before the call. -/
def addEventOrKeep (cm : CMState) (e : Event) (date id : String) : CMState :=
  match addEvent cm e date id with
  | .ok cm' => cm'
  | .error _ => cm

/-- A sequence of `addEvent` calls, each with its externally supplied date
and id; a call that throws leaves the state unchanged. -/
def addEvents (cm : CMState) : List (Event × String × String) → CMState
  | [] => cm
  | p :: ps => addEvents (addEventOrKeep cm p.1 p.2.1 p.2.2) ps

/-- A sequence of ring pushes, oldest first. -/
def RingBuf.pushMany (r : RingBuf α) : List α → RingBuf α
  | [] => r
  | x :: xs => RingBuf.pushMany (r.push x) xs

/-! ## Admin operations -/

/-- The user object handed to `addUser` / `associateUserToRoles`; either key
may be absent (JS `undefined`). -/
structure User where
  username : Option String
  password : Option String
deriving DecidableEq

/-- A JS template literal interpolation of a possibly-undefined string. -/
def jsStr : Option String → String
  | some s => s
  | none => "undefined"

/-- `ClusterManager.addUser(user)`.  App.js destructures
`const \x7b username, password \x7d = user` and then tests
`!user || !password`: after the destructuring `user` is a non-null object,
so only the password is actually validated.  On the non-throwing path the
create-user statement is fanned out across the members and then an
`adduser` event is appended (its message is non-empty, so that append
cannot throw; the error arm below is unreachable). -/
def addUser (cm : CMState) (members : List Node)
    (run : Node → String → Option String × Option String → Outcome ρ String)
    (user : User) (date id : String) :
    Except String (CMState × AggregatedResult ρ String) :=
  if ¬ truthy user.password then
    .error "Call with object containing keys username, password"
  else
    let agg := mapQueryAcrossCluster members
      "CALL dbms.security.createUser({username}, {password}, false)"
      (user.username, user.password) run
    let ev : Event :=
      { message := some ("Added user \"" ++ jsStr user.username ++ "\""),
        type := some "adduser",
        payload := user.username.map Payload.str }
    match addEvent cm ev date id with
    | .ok cm' => .ok (cm', agg)
    | .error e => .error e

/-! ## Role reconciler -/

/-- JS `new Set(list)` spread back to an array: deduplicate keeping the
first occurrence of each element, in insertion order. -/
def toJsSet (l : List String) : List String :=
  l.foldl (fun acc x => if x ∈ acc then acc else acc ++ [x]) []

/-- The `\x7b toAdd, toDelete, toPreserve \x7d` record computed per
(node, user) pair. -/
structure RoleDiff where
  toAdd : List String
  toDelete : List String
  toPreserve : List String
deriving DecidableEq

/-- `determineDifferences(rolesHere, node)` from `associateUserToRoles`
(the `node` argument only feeds logging): sets are JS `Set`s built from the
gathered roles and the desired `roles`, and the three deltas are the
filter-based difference / difference / intersection of App.js. -/
def determineDifferences (rolesHere : List String) (roles : List String) : RoleDiff :=
  let oldRoles := toJsSet rolesHere
  let newRoles := toJsSet roles
  let toDelete := oldRoles.filter (fun x => ¬ x ∈ newRoles)
  let toAdd := newRoles.filter (fun x => ¬ x ∈ oldRoles)
  let toPreserve := oldRoles.filter (fun x => x ∈ newRoles)
  { toAdd, toDelete, toPreserve }

/-- `Promise.all` over a list of settled outcomes: resolves with the list of
values when every outcome resolved, otherwise rejects with a rejection
reason.  Timing is abstracted away: the first error in list order stands in
for the first rejection in time (which error is reported is not part of any
claim). -/
def firstErr : List (Outcome ρ ε) → Option ε
  | [] => none
  | .ok _ :: rest => firstErr rest
  | .err e :: _ => some e

/-- Per-member settled outcomes of the reconciler's external calls:
`gatherRoles`' unpacked role list, and the result of each
`addNodeRole` / `removeNodeRole` single-member statement.  Errors are JS
`Error`s, modelled as strings. -/
structure AssocEnv where
  gather : Node → Outcome (List String) String
  addRoleRes : Node → String → Outcome String String
  removeRoleRes : Node → String → Outcome String String

/-- `applyChanges(roleChanges, node)` from `associateUserToRoles`: issue one
`addNodeRole` per `toAdd` entry and one `removeNodeRole` per `toDelete`
entry, `Promise.all` them, and map success to `clusterOpSuccess` with a
summary string, any failure to `clusterOpFailure` — this promise never
rejects. -/
def applyChanges (env : AssocEnv) (username : String) (roleChanges : RoleDiff)
    (node : Node) : ClusterOpResult String String :=
  let addOutcomes := roleChanges.toAdd.map (fun role => env.addRoleRes node role)
  let delOutcomes := roleChanges.toDelete.map (fun role => env.removeRoleRes node role)
  match firstErr (addOutcomes ++ delOutcomes) with
  | some e => clusterOpFailure node e
  | none =>
      let added := String.intercalate ", " roleChanges.toAdd
      let removed := String.intercalate ", " roleChanges.toDelete
      let addedStr := if added != "" then "Added: " ++ added else ""
      let removedStr := if removed != "" then "Removed: " ++ removed else ""
      clusterOpSuccess node
        (some ("Assigned roles to " ++ username ++ ". " ++ addedStr ++ " " ++ removedStr))

/-- The message of the `roleassoc` event appended inside each member's
branch of `associateUserToRoles`. -/
def roleAssocMessage (username : String) (roles : List String) : String :=
  "Associated \"" ++ username ++ "\" to roles " ++
    String.intercalate ", " (roles.map (fun r => "\"" ++ r ++ "\""))

/-- The event object handed to `addEvent` inside each member's branch of
`associateUserToRoles`. -/
def roleAssocEvent (username : String) (roles : List String) : Event :=
  { message := some (roleAssocMessage username roles),
    type := some "roleassoc",
    payload := some (Payload.userRoles username roles) }

/-- One member's branch of `associateUserToRoles`:
`gatherRoles(node).then(determineDifferences).then(applyChanges)
.then(() => addEvent(roleassoc)).then(() => clusterOpSuccess(node))
.catch(err => clusterOpFailure(node, err))`.
`applyChanges` never rejects, and the `.then(() => ...)` that follows it
discards its `ClusterOpResult`; the trailing catch therefore only sees a
`gatherRoles` rejection or an `addEvent` throw (the latter cannot occur
here because the `roleassoc` message and type are non-empty). -/
def assocBranch (env : AssocEnv) (username : String) (roles : List String)
    (stamp : Node → String × String) (cm : CMState) (node : Node) :
    CMState × ClusterOpResult String String :=
  match env.gather node with
  | .err e => (cm, clusterOpFailure node e)
  | .ok rolesHere =>
      let roleChanges := determineDifferences rolesHere roles
      let _applied := applyChanges env username roleChanges node
      let ev : Event := roleAssocEvent username roles
      match addEvent cm ev (stamp node).1 (stamp node).2 with
      | .ok cm' => (cm', clusterOpSuccess node none)
      | .error e => (cm, clusterOpFailure node e)

/-- The fan-out of `associateUserToRoles` over the member list.  The JS
branches run concurrently and each appends one event on its success path;
the fold linearizes those appends in member order (results are positional
via `Promise.all` and append counts do not depend on the interleaving). -/
def assocFold (env : AssocEnv) (username : String) (roles : List String)
    (stamp : Node → String × String) (cm : CMState) :
    List Node → CMState × List (ClusterOpResult String String)
  | [] => (cm, [])
  | n :: ns =>
      let p := assocBranch env username roles stamp cm n
      let q := assocFold env username roles stamp p.1 ns
      (q.1, p.2 :: q.2)

/-- `ClusterManager.associateUserToRoles(user, roles)`.  The `roles`
argument is a Lean list, so the JS `_.isArray(roles)` guard cannot fail in
the embedding; `user` must be an object carrying a truthy `username`,
otherwise the call throws synchronously.  Then every member's
gather/diff/apply branch runs and the settled results are packaged. -/
def associateUserToRoles (cm : CMState) (members : List Node) (env : AssocEnv)
    (user : User) (roles : List String) (stamp : Node → String × String) :
    Except String (CMState × AggregatedResult String String) :=
  if ¬ truthy user.username then
    .error "user must be an object with username"
  else
    let (cm', rs) := assocFold env (jsStr user.username) roles stamp cm members
    .ok (cm', packageClusterOpResults rs)

/-! ## Concrete fixtures used by witnesses and counterexamples -/

/-- The error message of a synchronous throw, `none` when the call did not
throw. -/
def exceptError : Except String β → Option String
  | .error e => some e
  | .ok _ => none

/-- A first cluster member. -/
def nodeA : Node := { boltAddress := "bolt://a:7687" }

/-- A second cluster member. -/
def nodeB : Node := { boltAddress := "bolt://b:7687" }

/-- A fixed date/uuid supply for event stamping. -/
def stamp0 : Node → String × String :=
  fun n => ("2019-01-01T00:00:00.000Z", n.boltAddress)

/-- An environment where every external call settles successfully. -/
def envAllOk : AssocEnv :=
  { gather := fun _ => .ok []
    addRoleRes := fun _ _ => .ok ""
    removeRoleRes := fun _ _ => .ok "" }

/-- An environment where the gather step succeeds with no roles but every
`addNodeRole` statement rejects. -/
def envApplyFails : AssocEnv :=
  { gather := fun _ => .ok []
    addRoleRes := fun _ _ => .err "role does not exist"
    removeRoleRes := fun _ _ => .ok "" }

/-- A `node.run` collaborator that always resolves. -/
def runOk : Node → String → Option String × Option String → Outcome String String :=
  fun _ _ _ => .ok "ok"

/-- A `node.run` collaborator that rejects exactly on `nodeB`. -/
def runBFails : Node → String → Unit → Outcome Nat String :=
  fun n _ _ => if n = nodeB then .err "connection refused" else .ok 7

/-- 201 valid events with pairwise distinct ids. -/
def c7Events : List (Event × String × String) :=
  (List.range 201).map
    (fun i => ({ message := some "m", type := some "t", payload := none }, "d", toString i))

/-! ## Helper lemmas -/

/-- If the filter by `success` keeps the whole list, every element
succeeds, and conversely. -/
theorem filter_success_length_iff (rs : List (ClusterOpResult ρ ε)) :
    (rs.filter (fun r => r.success)).length = rs.length ↔ ∀ r ∈ rs, r.success = true := by
  constructor
  · intro h
    exact List.filter_eq_self.mp (List.Sublist.eq_of_length (List.filter_sublist rs) h)
  · intro h
    rw [List.filter_eq_self.mpr h]

/-- Membership in a JS `Set` built from a list is membership in the list. -/
theorem mem_toJsSet (l : List String) (x : String) : x ∈ toJsSet l ↔ x ∈ l := by
  have general : ∀ (l acc : List String),
      x ∈ l.foldl (fun acc y => if y ∈ acc then acc else acc ++ [y]) acc ↔
        x ∈ acc ∨ x ∈ l := by
    intro l
    induction l with
    | nil => intro acc; simp
    | cons y ys ih =>
        intro acc
        rw [List.foldl_cons, ih]
        by_cases hy : y ∈ acc
        · simp only [if_pos hy, List.mem_cons]
          constructor
          · rintro (h | h)
            · exact Or.inl h
            · exact Or.inr (Or.inr h)
          · rintro (h | h | h)
            · exact Or.inl h
            · exact Or.inl (h ▸ hy)
            · exact Or.inr h
        · simp only [if_neg hy, List.mem_append, List.mem_singleton, List.mem_cons]
          tauto
  rw [toJsSet, general]
  simp

/-- One ring push appends at the tail and keeps the newest
`capacity`-many elements. -/
theorem RingBuf.push_items (r : RingBuf α) (a : α) :
    (r.push a).items = (r.items ++ [a]).drop (r.items.length + 1 - r.capacity) := by
  simp only [RingBuf.push]
  split
  · simp [List.length_append]
  · rename_i h
    rw [List.length_append] at h
    have h0 : r.items.length + 1 - r.capacity = 0 := by
      simp only [List.length_singleton] at h
      omega
    rw [h0, List.drop_zero]

/-- Pushing never changes the capacity. -/
theorem RingBuf.push_capacity (r : RingBuf α) (a : α) :
    (r.push a).capacity = r.capacity := rfl

/-- A sequence of pushes onto a ring that is within capacity keeps exactly
the newest `capacity`-many of the appended sequence (oldest evicted
first). -/
theorem RingBuf.pushMany_items (xs : List α) : ∀ (r : RingBuf α),
    r.items.length ≤ r.capacity →
    (r.pushMany xs).capacity = r.capacity ∧
    (r.pushMany xs).items =
      (r.items ++ xs).drop (r.items.length + xs.length - r.capacity) := by
  induction xs with
  | nil =>
      intro r hl
      refine ⟨rfl, ?_⟩
      simp only [RingBuf.pushMany, List.append_nil, List.length_nil]
      have h0 : r.items.length + 0 - r.capacity = 0 := by omega
      rw [h0, List.drop_zero]
  | cons x xs ih =>
      intro r hl
      have hitems := RingBuf.push_items r x
      have hcap := RingBuf.push_capacity r x
      have hlen : (r.push x).items.length ≤ (r.push x).capacity := by
        rw [hitems, hcap, List.length_drop, List.length_append]
        simp only [List.length_singleton]
        omega
      obtain ⟨ihcap, ihitems⟩ := ih (r.push x) hlen
      have hstep : r.pushMany (x :: xs) = (r.push x).pushMany xs := rfl
      refine ⟨by rw [hstep, ihcap, hcap], ?_⟩
      rw [hstep, ihitems, hitems, hcap]
      have hd1 : r.items.length + 1 - r.capacity ≤ (r.items ++ [x]).length := by
        rw [List.length_append]
        simp only [List.length_singleton]
        omega
      rw [← List.drop_append_of_le_length hd1, List.drop_drop]
      have hjoin : (r.items ++ [x]) ++ xs = r.items ++ x :: xs := by
        rw [List.append_assoc, List.singleton_append]
      rw [hjoin]
      congr 1
      simp only [List.length_drop, List.length_append, List.length_singleton,
        List.length_cons, List.length_nil]
      omega

/-- A run of `addEvent` calls on valid events is exactly a run of ring
pushes of the stamped events. -/
theorem addEvents_eq_pushMany (es : List (Event × String × String))
    (h : ∀ p ∈ es, truthy p.1.message = true ∧ truthy p.1.type = true) :
    ∀ cm : CMState, (addEvents cm es).eventLog =
      cm.eventLog.pushMany (es.map fun p => stampEvent p.1 p.2.1 p.2.2) := by
  induction es with
  | nil => intro cm; rfl
  | cons p ps ih =>
      intro cm
      have hp := h p (List.mem_cons_self p ps)
      have hok : addEvent cm p.1 p.2.1 p.2.2
          = .ok { cm with eventLog := cm.eventLog.push (stampEvent p.1 p.2.1 p.2.2) } := by
        unfold addEvent
        rw [if_neg]
        simp [hp.1, hp.2]
      have hkeep : addEventOrKeep cm p.1 p.2.1 p.2.2
          = { cm with eventLog := cm.eventLog.push (stampEvent p.1 p.2.1 p.2.2) } := by
        rw [addEventOrKeep, hok]
      have hstep : addEvents cm (p :: ps)
          = addEvents (addEventOrKeep cm p.1 p.2.1 p.2.2) ps := rfl
      rw [hstep, hkeep, ih (fun q hq => h q (List.mem_cons_of_mem p hq))]
      rfl

/-- The `roleassoc` message is never the empty string. -/
theorem roleAssocMessage_ne_empty (u : String) (roles : List String) :
    roleAssocMessage u roles ≠ "" := by
  intro h
  have hlen := congrArg String.length h
  rw [roleAssocMessage] at hlen
  simp only [String.length_append] at hlen
  have h12 : ("Associated \"" : String).length = 12 := by decide
  have h0 : ("" : String).length = 0 := by decide
  omega

/-- The reconciler fan-out appends exactly one `roleassoc` entry per member
whose gather step succeeded, preserves the ring capacity, produces one
per-member result per member, and (while the ring has room for the whole
fan-out) evicts nothing. -/
theorem assocFold_appends (env : AssocEnv) (u : String) (roles : List String)
    (stamp : Node → String × String) :
    ∀ (members : List Node) (cm : CMState),
      cm.eventLog.items.length + members.length ≤ cm.eventLog.capacity →
      (assocFold env u roles stamp cm members).2.length = members.length ∧
      (assocFold env u roles stamp cm members).1.eventLog.capacity
        = cm.eventLog.capacity ∧
      ∃ appended,
        (assocFold env u roles stamp cm members).1.eventLog.items
          = cm.eventLog.items ++ appended ∧
        appended.length = (members.filter (fun n => (env.gather n).isOk)).length ∧
        ∀ ev ∈ appended, ev.type = some "roleassoc" ∧
          ev.message = some (roleAssocMessage u roles) := by
  intro members
  induction members with
  | nil =>
      intro cm _
      exact ⟨rfl, rfl, [], by simp [assocFold], by simp, by simp⟩
  | cons n ns ih =>
      intro cm hroom
      cases hg : env.gather n with
      | err e =>
          have hbranch : assocBranch env u roles stamp cm n
              = (cm, clusterOpFailure n e) := by
            simp [assocBranch, hg]
          have hstep : assocFold env u roles stamp cm (n :: ns)
              = ((assocFold env u roles stamp cm ns).1,
                 clusterOpFailure n e :: (assocFold env u roles stamp cm ns).2) := by
            simp only [assocFold, hbranch]
          obtain ⟨ih1, ih2, appended, ha1, ha2, ha3⟩ := ih cm (by
            simp only [List.length_cons] at hroom
            omega)
          refine ⟨?_, ?_, appended, ?_, ?_, ha3⟩
          · rw [hstep]
            simp [ih1]
          · rw [hstep]
            exact ih2
          · rw [hstep]
            exact ha1
          · rw [ha2, List.filter_cons]
            simp [hg, Outcome.isOk]
      | ok rolesHere =>
          have hmsg : truthy (some (roleAssocMessage u roles)) = true := by
            simp [truthy, bne_iff_ne, roleAssocMessage_ne_empty u roles]
          have hc : ¬(¬ truthy (roleAssocEvent u roles).message = true ∨
              ¬ truthy (roleAssocEvent u roles).type = true) := by
            simp only [roleAssocEvent, truthy, not_or, Bool.not_eq_true, bne_iff_ne,
              ne_eq, Decidable.not_not]
            exact ⟨by simpa using roleAssocMessage_ne_empty u roles, by decide⟩
          have hok : addEvent cm (roleAssocEvent u roles) (stamp n).1 (stamp n).2
              = .ok { cm with eventLog := cm.eventLog.push (stampEvent (roleAssocEvent u roles) (stamp n).1 (stamp n).2) } := by
            unfold addEvent
            rw [if_neg hc]
          have hbranch : assocBranch env u roles stamp cm n
              = ({ cm with eventLog := cm.eventLog.push (stampEvent (roleAssocEvent u roles) (stamp n).1 (stamp n).2) },
                 clusterOpSuccess n none) := by
            simp only [assocBranch, hg]
            rw [hok]
          set st := stampEvent (roleAssocEvent u roles) (stamp n).1 (stamp n).2 with hst
          set cm1 : CMState := { cm with eventLog := cm.eventLog.push st } with hcm1
          have hpush : (cm.eventLog.push st).items = cm.eventLog.items ++ [st] := by
            rw [RingBuf.push_items]
            have h0 : cm.eventLog.items.length + 1 - cm.eventLog.capacity = 0 := by
              simp only [List.length_cons] at hroom
              omega
            rw [h0, List.drop_zero]
          have hroom1 : cm1.eventLog.items.length + ns.length ≤ cm1.eventLog.capacity := by
            show (cm.eventLog.push st).items.length + ns.length
              ≤ (cm.eventLog.push st).capacity
            rw [hpush, RingBuf.push_capacity, List.length_append]
            simp only [List.length_cons] at hroom
            simp only [List.length_singleton]
            omega
          obtain ⟨ih1, ih2, appended, ha1, ha2, ha3⟩ := ih cm1 hroom1
          have hstep : assocFold env u roles stamp cm (n :: ns)
              = ((assocFold env u roles stamp cm1 ns).1,
                 clusterOpSuccess n none :: (assocFold env u roles stamp cm1 ns).2) := by
            simp only [assocFold, hbranch]
          refine ⟨?_, ?_, st :: appended, ?_, ?_, ?_⟩
          · rw [hstep]
            simp [ih1]
          · rw [hstep, ih2]
            show (cm.eventLog.push st).capacity = cm.eventLog.capacity
            exact RingBuf.push_capacity cm.eventLog st
          · rw [hstep]
            show (assocFold env u roles stamp cm1 ns).1.eventLog.items
              = cm.eventLog.items ++ st :: appended
            rw [ha1]
            show (cm.eventLog.push st).items ++ appended
              = cm.eventLog.items ++ st :: appended
            rw [hpush, List.append_assoc, List.singleton_append]
          · simp [List.filter_cons, hg, Outcome.isOk, ha2]
          · intro ev hev
            rcases List.mem_cons.mp hev with h | h
            · subst h
              exact ⟨rfl, rfl⟩
            · exact ha3 ev h

/-! ## Claims -/

/-- C1: the aggregation rule `packageClusterOpResults` yields `success = true`
iff every per-member result has `success = true`; equivalently, the number of
failing members is zero. -/
theorem C1_aggregate_success_iff_no_failures (rs : List (ClusterOpResult ρ ε)) :
    ((packageClusterOpResults rs).success = true ↔ ∀ r ∈ rs, r.success = true) ∧
    ((packageClusterOpResults rs).success = true ↔
      (rs.countP (fun r => !r.success)) = 0) := by
  have hpkg : (packageClusterOpResults rs).success
      = ((rs.filter (fun r => r.success)).length == rs.length) := rfl
  constructor
  · rw [hpkg, beq_iff_eq]
    exact filter_success_length_iff rs
  · rw [hpkg, beq_iff_eq, filter_success_length_iff, List.countP_eq_zero]
    constructor
    · intro h r hr
      simp [h r hr]
    · intro h r hr
      have := h r hr
      simpa using this

/-- C1 witness: the rule evaluated on a concrete two-member result list. -/
theorem C1_aggregate_success_iff_no_failures_witness :
    ((packageClusterOpResults
        [clusterOpSuccess nodeA (some 1), clusterOpFailure nodeB "boom"]).success = true ↔
      ∀ r ∈ [clusterOpSuccess nodeA (some 1), clusterOpFailure nodeB "boom"],
        r.success = true) :=
  (C1_aggregate_success_iff_no_failures
    [clusterOpSuccess nodeA (some 1), clusterOpFailure nodeB "boom"]).1

/-- C10: on an empty member collection the fan-out resolves to a vacuous
cluster-wide success with no per-member results. -/
theorem C10_empty_cluster_vacuous_success (q : String) (p : π)
    (run : Node → String → π → Outcome ρ ε) :
    mapQueryAcrossCluster ([] : List Node) q p run
      = { success := true, results := [] } := rfl

/-- C2: every member's branch of `mapQueryAcrossCluster` converts its settled
outcome into a `ClusterOpResult` — failures become `success = false` carrying
the error, successes become `success = true` carrying the payload — and the
aggregate is always a structured `AggregatedResult` (the embedding is a total
function, mirroring the promise that is guaranteed to resolve). -/
theorem C2_fanout_captures_per_member_failures (members : List Node) (q : String)
    (p : π) (run : Node → String → π → Outcome ρ ε) :
    (∀ i, (h : i < members.length) →
      (mapQueryAcrossCluster members q p run).results[i]? =
        some (match run members[i] q p with
              | .ok r => clusterOpSuccess members[i] (some r)
              | .err e => clusterOpFailure members[i] e)) ∧
    (∀ r ∈ (mapQueryAcrossCluster members q p run).results,
      (∃ res, run r.node q p = .ok res ∧ r.success = true ∧
        r.results = some res ∧ r.err = none) ∨
      (∃ e, run r.node q p = .err e ∧ r.success = false ∧
        r.err = some e ∧ r.results = none)) := by
  constructor
  · intro i h
    show (members.map (memberBranch run q p))[i]? = _
    rw [List.getElem?_map, List.getElem?_eq_getElem h]
    cases hrun : run members[i] q p <;> simp [memberBranch, hrun]
  · intro r hr
    have hr' : r ∈ members.map (memberBranch run q p) := hr
    rw [List.mem_map] at hr'
    obtain ⟨n, _, rfl⟩ := hr'
    cases hrun : run n q p with
    | ok res =>
        left
        refine ⟨res, ?_, ?_, ?_, ?_⟩ <;>
          simp [memberBranch, hrun, clusterOpSuccess]
    | err e =>
        right
        refine ⟨e, ?_, ?_, ?_, ?_⟩ <;>
          simp [memberBranch, hrun, clusterOpFailure]

/-- C2 witness: a two-member cluster where `nodeB`'s run rejects. -/
theorem C2_fanout_captures_per_member_failures_witness :
    ∀ r ∈ (mapQueryAcrossCluster [nodeA, nodeB] "RETURN 1" () runBFails).results,
      (∃ res, runBFails r.node "RETURN 1" () = .ok res ∧ r.success = true ∧
        r.results = some res ∧ r.err = none) ∨
      (∃ e, runBFails r.node "RETURN 1" () = .err e ∧ r.success = false ∧
        r.err = some e ∧ r.results = none) :=
  (C2_fanout_captures_per_member_failures [nodeA, nodeB] "RETURN 1" () runBFails).2

/-- C3: the aggregate carries exactly one `ClusterOpResult` per targeted
member, and the i-th result belongs to the i-th member of the collection's
iteration order (`Promise.all` assembles positionally, so this holds whatever
the completion order was). -/
theorem C3_one_result_per_member_in_order (members : List Node) (q : String)
    (p : π) (run : Node → String → π → Outcome ρ ε) :
    (mapQueryAcrossCluster members q p run).results.length = members.length ∧
    ∀ i, (h : i < members.length) →
      ∃ r, (mapQueryAcrossCluster members q p run).results[i]? = some r ∧
        r.node = members[i] ∧ r.addr = members[i].getBoltAddress := by
  constructor
  · show (members.map (memberBranch run q p)).length = members.length
    rw [List.length_map]
  · intro i h
    refine ⟨memberBranch run q p members[i], ?_, ?_, ?_⟩
    · show (members.map (memberBranch run q p))[i]? = _
      rw [List.getElem?_map, List.getElem?_eq_getElem h]
      rfl
    · cases hrun : run members[i] q p <;>
        simp [memberBranch, hrun, clusterOpSuccess, clusterOpFailure]
    · cases hrun : run members[i] q p <;>
        simp [memberBranch, hrun, clusterOpSuccess, clusterOpFailure]

/-- C3 witness: both members of a concrete two-member cluster appear at their
own position even though one of them fails. -/
theorem C3_one_result_per_member_in_order_witness :
    (mapQueryAcrossCluster [nodeA, nodeB] "RETURN 1" () runBFails).results.length = 2 ∧
    ∃ r, (mapQueryAcrossCluster [nodeA, nodeB] "RETURN 1" () runBFails).results[1]? = some r ∧
      r.node = nodeB ∧ r.addr = nodeB.getBoltAddress := by
  have h := C3_one_result_per_member_in_order [nodeA, nodeB] "RETURN 1" () runBFails
  exact ⟨h.1, by
    have h2 := h.2 1 (by decide)
    simpa using h2⟩

/-- C9: `determineDifferences` computes `toDelete = existing − desired`,
`toAdd = desired − existing`, `toPreserve = existing ∩ desired` (as sets);
the three are pairwise disjoint, `toPreserve ∪ toAdd` is exactly the desired
set, and on an already-converged node (existing = desired as sets) both
`toAdd` and `toDelete` are empty, so a second run with the same desired set
changes nothing. -/
theorem C9_role_diff_is_partition (existing desired : List String) :
    (∀ x, x ∈ (determineDifferences existing desired).toDelete ↔
      x ∈ existing ∧ x ∉ desired) ∧
    (∀ x, x ∈ (determineDifferences existing desired).toAdd ↔
      x ∈ desired ∧ x ∉ existing) ∧
    (∀ x, x ∈ (determineDifferences existing desired).toPreserve ↔
      x ∈ existing ∧ x ∈ desired) ∧
    (∀ x, ¬(x ∈ (determineDifferences existing desired).toAdd ∧
      x ∈ (determineDifferences existing desired).toDelete)) ∧
    (∀ x, ¬(x ∈ (determineDifferences existing desired).toAdd ∧
      x ∈ (determineDifferences existing desired).toPreserve)) ∧
    (∀ x, ¬(x ∈ (determineDifferences existing desired).toDelete ∧
      x ∈ (determineDifferences existing desired).toPreserve)) ∧
    (∀ x, (x ∈ (determineDifferences existing desired).toPreserve ∨
      x ∈ (determineDifferences existing desired).toAdd) ↔ x ∈ desired) ∧
    ((∀ x, x ∈ existing ↔ x ∈ desired) →
      (determineDifferences existing desired).toAdd = [] ∧
      (determineDifferences existing desired).toDelete = []) := by
  have hdel : ∀ x, x ∈ (determineDifferences existing desired).toDelete ↔
      x ∈ existing ∧ x ∉ desired := by
    intro x
    simp [determineDifferences, List.mem_filter, mem_toJsSet, decide_eq_true_eq]
  have hadd : ∀ x, x ∈ (determineDifferences existing desired).toAdd ↔
      x ∈ desired ∧ x ∉ existing := by
    intro x
    simp [determineDifferences, List.mem_filter, mem_toJsSet, decide_eq_true_eq]
  have hpre : ∀ x, x ∈ (determineDifferences existing desired).toPreserve ↔
      x ∈ existing ∧ x ∈ desired := by
    intro x
    simp [determineDifferences, List.mem_filter, mem_toJsSet, decide_eq_true_eq]
  refine ⟨hdel, hadd, hpre, ?_, ?_, ?_, ?_, ?_⟩
  · intro x ⟨h1, h2⟩
    exact ((hdel x).mp h2).2 ((hadd x).mp h1).1
  · intro x ⟨h1, h2⟩
    exact ((hadd x).mp h1).2 ((hpre x).mp h2).1
  · intro x ⟨h1, h2⟩
    exact ((hdel x).mp h1).2 ((hpre x).mp h2).2
  · intro x
    constructor
    · rintro (h | h)
      · exact ((hpre x).mp h).2
      · exact ((hadd x).mp h).1
    · intro h
      by_cases he : x ∈ existing
      · exact Or.inl ((hpre x).mpr ⟨he, h⟩)
      · exact Or.inr ((hadd x).mpr ⟨h, he⟩)
  · intro hext
    constructor
    · rw [List.eq_nil_iff_forall_not_mem]
      intro x hx
      exact ((hadd x).mp hx).2 ((hext x).mpr ((hadd x).mp hx).1)
    · rw [List.eq_nil_iff_forall_not_mem]
      intro x hx
      exact ((hdel x).mp hx).2 ((hext x).mp ((hdel x).mp hx).1)

/-- C9 witness: the spec's own scenario, `existing = [admin, reader]`,
`desired = [reader, writer]`. -/
theorem C9_role_diff_is_partition_witness :
    (∀ x, (x ∈ (determineDifferences ["admin", "reader"] ["reader", "writer"]).toPreserve ∨
      x ∈ (determineDifferences ["admin", "reader"] ["reader", "writer"]).toAdd) ↔
      x ∈ ["reader", "writer"]) ∧
    ((∀ x, x ∈ ["admin"] ↔ x ∈ ["admin"]) →
      (determineDifferences ["admin"] ["admin"]).toAdd = [] ∧
      (determineDifferences ["admin"] ["admin"]).toDelete = []) ∧
    (determineDifferences ["admin"] ["admin"]).toAdd = [] := by
  refine ⟨(C9_role_diff_is_partition ["admin", "reader"] ["reader", "writer"]).2.2.2.2.2.2.1,
    (C9_role_diff_is_partition ["admin"] ["admin"]).2.2.2.2.2.2.2, ?_⟩
  exact ((C9_role_diff_is_partition ["admin"] ["admin"]).2.2.2.2.2.2.2
    (fun x => Iff.rfl)).1

/-- C8: appending an event whose `message` or `type` is missing or empty
throws the ValidationError synchronously, and the log's contents and size
are exactly what they were before the call. -/
theorem C8_invalid_event_throw_leaves_log_unchanged (cm : CMState) (e : Event)
    (d i : String)
    (h : e.message = none ∨ e.message = some "" ∨ e.type = none ∨ e.type = some "") :
    addEvent cm e d i = .error "ClusterManager events must have at least message, type" ∧
    addEventOrKeep cm e d i = cm ∧
    getEventLog (addEventOrKeep cm e d i) = getEventLog cm := by
  have hcond : ¬ truthy e.message = true ∨ ¬ truthy e.type = true := by
    rcases h with h | h | h | h <;> simp [truthy, h]
  have herr : addEvent cm e d i
      = .error "ClusterManager events must have at least message, type" := by
    unfold addEvent
    rw [if_pos hcond]
  refine ⟨herr, ?_, ?_⟩ <;> simp [addEventOrKeep, herr]

/-- C8 witness: an event with no message at all. -/
theorem C8_invalid_event_throw_leaves_log_unchanged_witness :
    addEvent mkClusterManager { message := none, type := some "t", payload := none } "d" "i"
      = .error "ClusterManager events must have at least message, type" ∧
    addEventOrKeep mkClusterManager { message := none, type := some "t", payload := none } "d" "i"
      = mkClusterManager ∧
    getEventLog (addEventOrKeep mkClusterManager
        { message := none, type := some "t", payload := none } "d" "i")
      = getEventLog mkClusterManager :=
  C8_invalid_event_throw_leaves_log_unchanged mkClusterManager
    { message := none, type := some "t", payload := none } "d" "i" (Or.inl rfl)

/-- C4: the claim fails on the code.  With a member whose gather succeeds and
whose only `addNodeRole` call rejects, `applyChanges` does yield
`clusterOpFailure` (first conjunct) — but its result is discarded by the
following `.then(() => ...)`, so that member's entry in the final
`AggregatedResult` is `clusterOpSuccess` and the aggregate reports
`success = true` (second conjunct), contradicting the claim that the
member's entry is a failure carrying the error. -/
theorem C4_apply_failure_swallowed_by_chain :
    (applyChanges envApplyFails "alice"
        (determineDifferences [] ["reader"]) nodeA).success = false ∧
    ((associateUserToRoles mkClusterManager [nodeA] envApplyFails
        { username := some "alice", password := none } ["reader"] stamp0).toOption.map
      (fun p => (p.2.success, p.2.results.map (fun r => r.success))))
      = some (true, [true]) := by decide

/-- C6: the claim fails on the code.  `addUser` destructures the user object
and then tests `!user || !password`; the `!user` disjunct is vacuous after
the destructuring, so an input carrying a password but no username is NOT
rejected: the call proceeds and the fan-out executor issues one query per
member (first conjunct).  A missing password does throw the ArgumentError
(second conjunct), and fully valid input does not throw (third conjunct). -/
theorem C6_missing_username_reaches_executor :
    ((addUser mkClusterManager [nodeA] runOk
        { username := none, password := some "secret" } "d" "i").toOption.map
      (fun p => p.2.results.length) = some 1) ∧
    (exceptError (addUser mkClusterManager [nodeA] runOk
        { username := some "alice", password := none } "d" "i")
      = some "Call with object containing keys username, password") ∧
    ((addUser mkClusterManager [nodeA] runOk
        { username := some "alice", password := some "secret" } "d" "i").toOption.isSome
      = true) := by decide

/-- C5 counterexample: on a two-member cluster where both gather steps
succeed, `associateUserToRoles` appends TWO `roleassoc` entries (one inside
each member's branch), not exactly one appended after all members settle. -/
theorem C5_two_members_two_roleassoc_events :
    (match associateUserToRoles mkClusterManager [nodeA, nodeB] envAllOk
        { username := some "alice", password := none } ["reader"] stamp0 with
     | .ok (cm', _) =>
        ((getEventLog cm').filter (fun ev => ev.type == some "roleassoc")).length
     | .error _ => 0) = 2 := by decide

/-- C7: under any sequence of successful appends the event log never
exceeds `MAX_EVENTS = 200` entries; the snapshot is the suffix of the
stamped append sequence in insertion order (oldest first, newest last);
and after 201 appends the log holds exactly 200 entries with the
first-appended entry (distinct from the rest, as its id is a fresh UUID)
no longer present. -/
theorem C7_eventlog_bounded_fifo (es : List (Event × String × String))
    (hval : ∀ p ∈ es, truthy p.1.message = true ∧ truthy p.1.type = true) :
    (getEventLog (addEvents mkClusterManager es)).length ≤ MAX_EVENTS ∧
    getEventLog (addEvents mkClusterManager es) =
      (es.map fun p => stampEvent p.1 p.2.1 p.2.2).drop (es.length - MAX_EVENTS) ∧
    (es.length = 201 →
      (getEventLog (addEvents mkClusterManager es)).length = 200 ∧
      ∀ e0 rest, (es.map fun p => stampEvent p.1 p.2.1 p.2.2) = e0 :: rest →
        e0 ∉ rest → e0 ∉ getEventLog (addEvents mkClusterManager es)) := by
  have hlog : (addEvents mkClusterManager es).eventLog =
      mkClusterManager.eventLog.pushMany (es.map fun p => stampEvent p.1 p.2.1 p.2.2) :=
    addEvents_eq_pushMany es hval mkClusterManager
  have hbase : mkClusterManager.eventLog.items.length ≤ mkClusterManager.eventLog.capacity := by
    simp [mkClusterManager]
  obtain ⟨-, hitems⟩ :=
    RingBuf.pushMany_items (es.map fun p => stampEvent p.1 p.2.1 p.2.2)
      mkClusterManager.eventLog hbase
  have hsnap : getEventLog (addEvents mkClusterManager es) =
      (es.map fun p => stampEvent p.1 p.2.1 p.2.2).drop (es.length - MAX_EVENTS) := by
    simp only [getEventLog, RingBuf.toArray, hlog, hitems]
    simp [mkClusterManager]
  refine ⟨?_, hsnap, ?_⟩
  · rw [hsnap, List.length_drop, List.length_map]
    omega
  · intro h201
    constructor
    · rw [hsnap, List.length_drop, List.length_map, h201]
      rfl
    · intro e0 rest hmap hnotin
      rw [hsnap, hmap]
      have hamt : es.length - MAX_EVENTS = 1 := by
        rw [h201]
        rfl
      rw [hamt]
      simpa using hnotin

set_option maxRecDepth 8000 in
/-- C7 witness: 201 concrete valid events. -/
theorem C7_eventlog_bounded_fifo_witness :
    (getEventLog (addEvents mkClusterManager c7Events)).length ≤ MAX_EVENTS :=
  (C7_eventlog_bounded_fifo c7Events (by decide)).1

/-- C5 (amended): `associateUserToRoles` appends one `roleassoc` entry per
member whose gather step succeeds — inside that member's branch, not once
after every branch settles — each summarizing the requested (not the
actually applied) role set, and the call resolves to the `AggregatedResult`
built by the packaging rule, with one entry per member.  (The room
hypothesis keeps the ring from evicting, so the appends are visible in the
snapshot.) -/
theorem C5_one_roleassoc_per_successful_gather (cm : CMState) (members : List Node)
    (env : AssocEnv) (user : User) (roles : List String)
    (stamp : Node → String × String)
    (huser : truthy user.username = true)
    (hroom : cm.eventLog.items.length + members.length ≤ cm.eventLog.capacity) :
    ∃ cm' agg,
      associateUserToRoles cm members env user roles stamp = .ok (cm', agg) ∧
      agg = packageClusterOpResults
        (assocFold env (jsStr user.username) roles stamp cm members).2 ∧
      agg.results.length = members.length ∧
      ∃ appended, getEventLog cm' = getEventLog cm ++ appended ∧
        appended.length = (members.filter (fun n => (env.gather n).isOk)).length ∧
        ∀ ev ∈ appended, ev.type = some "roleassoc" ∧
          ev.message = some (roleAssocMessage (jsStr user.username) roles) := by
  obtain ⟨h1, -, appended, ha1, ha2, ha3⟩ :=
    assocFold_appends env (jsStr user.username) roles stamp members cm hroom
  refine ⟨(assocFold env (jsStr user.username) roles stamp cm members).1,
    packageClusterOpResults (assocFold env (jsStr user.username) roles stamp cm members).2,
    ?_, rfl, ?_, appended, ?_, ha2, ha3⟩
  · unfold associateUserToRoles
    rw [if_neg (by simp [huser])]
  · show (assocFold env (jsStr user.username) roles stamp cm members).2.length
      = members.length
    exact h1
  · show (assocFold env (jsStr user.username) roles stamp cm members).1.eventLog.items
      = cm.eventLog.items ++ appended
    exact ha1

/-- C5 amended-claim witness: a two-member cluster whose gathers both
succeed appends one `roleassoc` entry per member. -/
theorem C5_one_roleassoc_per_successful_gather_witness :
    ∃ cm' agg,
      associateUserToRoles mkClusterManager [nodeA, nodeB] envAllOk
        { username := some "alice", password := none } ["reader"] stamp0
        = .ok (cm', agg) ∧
      agg = packageClusterOpResults
        (assocFold envAllOk (jsStr (some "alice")) ["reader"] stamp0
          mkClusterManager [nodeA, nodeB]).2 ∧
      agg.results.length = [nodeA, nodeB].length ∧
      ∃ appended, getEventLog cm' = getEventLog mkClusterManager ++ appended ∧
        appended.length
          = ([nodeA, nodeB].filter (fun n => (envAllOk.gather n).isOk)).length ∧
        ∀ ev ∈ appended, ev.type = some "roleassoc" ∧
          ev.message = some (roleAssocMessage (jsStr (some "alice")) ["reader"]) :=
  C5_one_roleassoc_per_successful_gather mkClusterManager [nodeA, nodeB] envAllOk
    { username := some "alice", password := none } ["reader"] stamp0
    (by decide) (by decide)

end Halin
